import Mathlib

/-!
Verification of the concurrent phone lease pool of `phonemanager.py`
(`PhoneManager` and `HeroSMSPhoneManager`).

Shallow embedding conventions:
* Python `dict` (insertion ordered) becomes an ordered `List` of entries; a
  dict assignment `d[k] = v` replaces the first entry with that key in place
  or appends a new entry at the end.
* `datetime` timestamps and the timeout `timedelta` become `Int`; the Python
  comparison `now - locked_at > timeout` is integer comparison.
* Python truthiness is modelled where the source relies on it:
  `if phone.locked_by and phone.locked_at:` is true only for a non-empty
  holder string (a `datetime` object is always truthy), and
  `if phone_number:` in `acquire_phone` is false for the empty string.
* The HeroSMS provisioner is a pure response stream `Nat → NumResp` for
  `get_number_v2` and `Nat → StatusResp` for `get_status`; the state keeps an
  index of how many `get_number_v2` calls have been made.  The best-effort
  `set_status` pushes have no effect on pool state (all their exceptions are
  swallowed by the source) and are not modelled.
-/

namespace AmazonCreator

/-- Provisioner answer to `get_number_v2`: a success dict with
`phoneNumber` and `activationId`, a non-success status dict, or a raised
exception. -/
inductive NumResp where
  | ok (phoneNumber : String) (activationId : String)
  | fail
  | exc
deriving DecidableEq

/-- Provisioner answer to `get_status`: a dict with a `status` string and an
optional `code` entry, or a raised exception. -/
inductive StatusResp where
  | resp (status : String) (code : Option String)
  | exc
deriving DecidableEq

/-- Structure `PhoneInfo` from `phonemanager.py`: metadata stored for each phone. -/
structure PhoneInfo where
  number : String
  used_count : Nat := 0
  locked_by : Option String := none
  locked_at : Option Int := none
  activation_id : Option String := none
  activation_data : Option NumResp := none
deriving DecidableEq

/-- State of a `PhoneManager`: the ordered `_phones` table and the two
counters (the lock and condition variable carry no data). -/
structure PMState where
  phones : List PhoneInfo
  total_acquired : Nat := 0
  total_released : Nat := 0
deriving DecidableEq

/-- Dict lookup `self._phones[n]` / membership test: first entry with the
given number. -/
def lookupPhone (phones : List PhoneInfo) (n : String) : Option PhoneInfo :=
  phones.find? (fun p => p.number = n)

/-- In-place mutation of the entry for key `n` (Python mutates the
`PhoneInfo` object found in the dict): rewrite the first entry with that
number. -/
def updateFirst (n : String) (f : PhoneInfo → PhoneInfo) :
    List PhoneInfo → List PhoneInfo
  | [] => []
  | p :: ps =>
    if p.number = n then f p :: ps else p :: updateFirst n f ps

/-- The mutation `acquire_phone` applies to the scanned phone:
`phone.locked_by = thread_id; phone.locked_at = datetime.now()`. -/
def lockUpdate (tid : String) (now : Int) (p : PhoneInfo) : PhoneInfo :=
  { p with locked_by := some tid, locked_at := some now }

/-- The mutation `release_phone` applies to the validated phone: clear the
lease and increment `used_count` only when `success`. -/
def releaseUpdate (success : Bool) (p : PhoneInfo) : PhoneInfo :=
  { p with
    locked_by := none
    locked_at := none
    used_count := if success then p.used_count + 1 else p.used_count }

/-- Dict assignment `self._phones[num] = ph`: replace the existing entry in
place, else append. -/
def dictInsert (phones : List PhoneInfo) (ph : PhoneInfo) : List PhoneInfo :=
  if phones.any (fun q => q.number = ph.number) then
    updateFirst ph.number (fun _ => ph) phones
  else
    phones ++ [ph]

/-- The keys of the table, in order. -/
def phoneNumbers (phones : List PhoneInfo) : List String :=
  phones.map PhoneInfo.number

/-- Method `PhoneManager._find_available_phone`: first phone with
`used_count < 2` (the hardcoded bound of the base class) that is not
locked. -/
def find_available_phone : List PhoneInfo → Option String
  | [] => none
  | p :: ps =>
    if p.used_count ≥ 2 then find_available_phone ps
    else if p.locked_by = none then some p.number
    else find_available_phone ps

/-- Body of the loop of `PhoneManager._release_timed_out_phones` for one
phone.  `if phone.locked_by and phone.locked_at:` relies on truthiness: an
empty-string holder is skipped; a set `datetime` is always truthy. -/
def reclaimOne (now ttl : Int) (p : PhoneInfo) : PhoneInfo :=
  if p.used_count ≥ 2 then p
  else
    match p.locked_by, p.locked_at with
    | some b, some t =>
      if b ≠ "" ∧ now - t > ttl then
        { p with locked_by := none, locked_at := none,
                 used_count := p.used_count + 1 }
      else p
    | _, _ => p

/-- Method `PhoneManager._release_timed_out_phones`: sweep every phone of the
table. -/
def release_timed_out_phones (now ttl : Int) (phones : List PhoneInfo) :
    List PhoneInfo :=
  phones.map (reclaimOne now ttl)

/-- One iteration of the `while True` loop of `PhoneManager.acquire_phone`
(the part under the lock): reclaim timed-out phones, scan, and on a truthy
scan result lock the phone and return it.  `none` means the iteration found
nothing and the caller waits or times out. -/
def acquire_phone_step (ttl : Int) (tid : String) (now : Int) (s : PMState) :
    Option String × PMState :=
  let phones1 := release_timed_out_phones now ttl s.phones
  match find_available_phone phones1 with
  | some pn =>
    if pn ≠ "" then
      (some pn,
        { s with
          phones := updateFirst pn (lockUpdate tid now) phones1,
          total_acquired := s.total_acquired + 1 })
    else (none, { s with phones := phones1 })
  | none => (none, { s with phones := phones1 })

/-- Method `PhoneManager.acquire_phone`: iterate `acquire_phone_step`; after a
failed iteration return `none` once the wait budget `end_time` is spent,
otherwise wait and retry.  The list supplies the clock value observed at
each iteration. -/
def acquire_phone_loop (ttl : Int) (tid : String) (endTime : Int) :
    List Int → PMState → Option String × PMState
  | [], s => (none, s)
  | now :: rest, s =>
    match acquire_phone_step ttl tid now s with
    | (some p, s') => (some p, s')
    | (none, s') =>
      if endTime - now ≤ 0 then (none, s')
      else acquire_phone_loop ttl tid endTime rest s'

/-- Method `PhoneManager.release_phone`: validate existence and ownership, else
return `False` with no mutation; on success clear the lease, increment
`used_count` when `success`, and bump `total_released`. -/
def release_phone (num tid : String) (success : Bool) (s : PMState) :
    Bool × PMState :=
  match lookupPhone s.phones num with
  | none => (false, s)
  | some ph =>
    if ph.locked_by ≠ some tid then (false, s)
    else
      (true,
        { s with
          phones := updateFirst num (releaseUpdate success) s.phones,
          total_released := s.total_released + 1 })

/-- Result of `PhoneManager.get_stats`. -/
structure Stats where
  total_phones : Nat
  available : Nat
  locked : Nat
  exhausted : Nat
  total_acquired : Nat
  total_released : Nat
deriving DecidableEq

/-- Method `PhoneManager.get_stats`. -/
def get_stats (s : PMState) : Stats :=
  { total_phones := s.phones.length
    available :=
      (s.phones.filter
        (fun p => decide (p.used_count < 2) && p.locked_by.isNone)).length
    locked := (s.phones.filter (fun p => p.locked_by.isSome)).length
    exhausted := (s.phones.filter (fun p => decide (p.used_count ≥ 2))).length
    total_acquired := s.total_acquired
    total_released := s.total_released }

/-- Key list of a Python dict comprehension over `phone_numbers`: first
occurrence of each key, in order. -/
def dedupKeys : List String → List String
  | [] => []
  | n :: ns => n :: (dedupKeys ns).filter (fun m => m ≠ n)

/-- Constructor `PhoneManager.__init__`: one fresh `PhoneInfo` per distinct number,
counters zero. -/
def initState (nums : List String) : PMState :=
  { phones := (dedupKeys nums).map (fun n => { number := n }),
    total_acquired := 0, total_released := 0 }

/-- One public step of a `PhoneManager` with timeout `ttl`: an
`acquire_phone` iteration by any requester at any time, a `release_phone`
call, or a timeout-reclaim sweep. -/
inductive PMStep (ttl : Int) : PMState → PMState → Prop
  | acquire (tid : String) (now : Int) (s : PMState) :
      PMStep ttl s (acquire_phone_step ttl tid now s).2
  | release (num tid : String) (success : Bool) (s : PMState) :
      PMStep ttl s (release_phone num tid success s).2
  | reclaim (now : Int) (s : PMState) :
      PMStep ttl s { s with phones := release_timed_out_phones now ttl s.phones }

/-- States of a `PhoneManager` reachable from construction on `nums`. -/
def PMReachable (ttl : Int) (nums : List String) (s : PMState) : Prop :=
  Relation.ReflTransGen (PMStep ttl) (initState nums) s

/-! ### HeroSMSPhoneManager -/

/-- State of a `HeroSMSPhoneManager`: the inherited pool state plus the
`_activation_map` and the number of `get_number_v2` calls made so far (the
index into the provisioner's response stream). -/
structure HSState where
  phones : List PhoneInfo
  total_acquired : Nat := 0
  total_released : Nat := 0
  activationMap : List (String × String) := []
  provIdx : Nat := 0
deriving DecidableEq

/-- Dict assignment on `_activation_map`. -/
def assocInsert : List (String × String) → String → String →
    List (String × String)
  | [], k, v => [(k, v)]
  | (a, b) :: rest, k, v =>
    if a = k then (k, v) :: rest else (a, b) :: assocInsert rest k v

/-- The `available_count` of `HeroSMSPhoneManager._refill_pool`:
`used_count < self.max_uses and locked_by is None`. -/
def countAvailable (maxUses : Nat) (phones : List PhoneInfo) : Nat :=
  (phones.filter
    (fun p => decide (p.used_count < maxUses) && p.locked_by.isNone)).length

/-- Outcome of the fetch loop of `_refill_pool`. -/
structure FetchOut where
  phones : List PhoneInfo
  amap : List (String × String)
  idx : Nat
deriving DecidableEq

/-- The `for i in range(needed)` loop of `_refill_pool`: one
`get_number_v2` call per iteration; a success inserts a fresh `PhoneInfo`
(zero uses, no holder) and records the activation id; a non-success result
or an exception breaks out of the loop, keeping everything obtained so
far. -/
def fetchNumbers (prov : Nat → NumResp) :
    Nat → Nat → List PhoneInfo → List (String × String) → FetchOut
  | 0, idx, phones, amap => ⟨phones, amap, idx⟩
  | n + 1, idx, phones, amap =>
    match prov idx with
    | NumResp.ok num actId =>
      fetchNumbers prov n (idx + 1)
        (dictInsert phones
          { number := num, activation_id := some actId,
            activation_data := some (NumResp.ok num actId) })
        (assocInsert amap num actId)
    | NumResp.fail => ⟨phones, amap, idx + 1⟩
    | NumResp.exc => ⟨phones, amap, idx + 1⟩

/-- Method `HeroSMSPhoneManager._refill_pool`: compute
`needed = pool_size - available_count` and, unless nothing is needed, run
the fetch loop. -/
def refill_pool (maxUses poolSize : Nat) (prov : Nat → NumResp)
    (s : HSState) : HSState :=
  let needed := poolSize - countAvailable maxUses s.phones
  if needed = 0 then s
  else
    let out := fetchNumbers prov needed s.provIdx s.phones s.activationMap
    { s with phones := out.phones, activationMap := out.amap,
             provIdx := out.idx }

/-- One iteration of the `while True` loop of
`HeroSMSPhoneManager.acquire_phone`: refill the pool first, then reclaim
timed-out phones, then scan; on a truthy scan result lock the phone (the
best-effort `set_status(…, 1)` push does not touch pool state) and return
it. -/
def hero_acquire_phone_step (maxUses poolSize : Nat) (ttl : Int)
    (prov : Nat → NumResp) (tid : String) (now : Int) (s : HSState) :
    Option String × HSState :=
  let s1 := refill_pool maxUses poolSize prov s
  let phones2 := release_timed_out_phones now ttl s1.phones
  match find_available_phone phones2 with
  | some pn =>
    if pn ≠ "" then
      (some pn,
        { s1 with
          phones := updateFirst pn (lockUpdate tid now) phones2,
          total_acquired := s1.total_acquired + 1 })
    else (none, { s1 with phones := phones2 })
  | none => (none, { s1 with phones := phones2 })

/-- Method `HeroSMSPhoneManager.acquire_phone`: iterate the step; after a failed
iteration return `none` once the wait budget is spent. -/
def hero_acquire_phone_loop (maxUses poolSize : Nat) (ttl : Int)
    (prov : Nat → NumResp) (tid : String) (endTime : Int) :
    List Int → HSState → Option String × HSState
  | [], s => (none, s)
  | now :: rest, s =>
    match hero_acquire_phone_step maxUses poolSize ttl prov tid now s with
    | (some p, s') => (some p, s')
    | (none, s') =>
      if endTime - now ≤ 0 then (none, s')
      else hero_acquire_phone_loop maxUses poolSize ttl prov tid endTime rest s'

/-- Method `HeroSMSPhoneManager.release_phone`: same validation and pool mutation
as the base class; the best-effort `set_status` push (complete or cancel)
does not touch pool state. -/
def hero_release_phone (num tid : String) (success : Bool) (s : HSState) :
    Bool × HSState :=
  match lookupPhone s.phones num with
  | none => (false, s)
  | some ph =>
    if ph.locked_by ≠ some tid then (false, s)
    else
      (true,
        { s with
          phones := updateFirst num (releaseUpdate success) s.phones,
          total_released := s.total_released + 1 })

/-- The classification made by the first branch of the polling loop of
`get_sms_code`: a response is *received* when
`status['status'] == 'success' and status.get('code')` — the status string
is `success` and a truthy (non-empty) code is present; the returned value
is that code. -/
def receivedCode : StatusResp → Option String
  | StatusResp.resp st c =>
    if st = "success" then
      match c with
      | some code => if code = "" then none else some code
      | none => none
    else none
  | StatusResp.exc => none

/-- Whether a response takes the `status['status'] == 'canceled'` branch of
the polling loop (an exception never reaches that branch). -/
def canceledResp : StatusResp → Bool
  | StatusResp.resp st _ => st = "canceled"
  | StatusResp.exc => false

/-- The `for attempt in range(max_retries)` polling loop of
`HeroSMSPhoneManager.get_sms_code`: return the code on a received
response, `none` on a canceled response, and keep polling (consuming a
retry) on a wait, an unexpected status, a success without a truthy code,
or a raised exception; exhausting the retries returns `none`. -/
def get_sms_code_loop (hst : Nat → StatusResp) : Nat → Nat → Option String
  | 0, _ => none
  | n + 1, attempt =>
    match hst attempt with
    | StatusResp.exc => get_sms_code_loop hst n (attempt + 1)
    | StatusResp.resp st c =>
      match receivedCode (StatusResp.resp st c) with
      | some code => some code
      | none =>
        if st = "wait" then get_sms_code_loop hst n (attempt + 1)
        else if st = "canceled" then none
        else get_sms_code_loop hst n (attempt + 1)

/-- Method `HeroSMSPhoneManager.get_sms_code`: look up the phone under the lock;
an unknown phone or a falsy (`None` or empty) activation id returns `none`
at once; otherwise poll the status stream up to `maxRetries` times. -/
def get_sms_code (hst : Nat → StatusResp) (s : HSState) (phone : String)
    (maxRetries : Nat) : Option String :=
  match lookupPhone s.phones phone with
  | none => none
  | some ph =>
    match ph.activation_id with
    | none => none
    | some a => if a = "" then none else get_sms_code_loop hst maxRetries 0

/-! ### Invariants and helper lemmas -/

/-- Every held phone is strictly below the hardcoded exhaustion bound of the
base class. -/
def LockedBelow (phones : List PhoneInfo) : Prop :=
  ∀ p ∈ phones, p.locked_by ≠ none → p.used_count < 2

/-- Inductive invariant of a `PhoneManager`: the table keys are distinct
(dict keys) and every held phone is non-exhausted. -/
def PoolInv (s : PMState) : Prop :=
  (phoneNumbers s.phones).Nodup ∧ LockedBelow s.phones

theorem reclaimOne_number (now ttl : Int) (p : PhoneInfo) :
    (reclaimOne now ttl p).number = p.number := by
  unfold reclaimOne
  split
  · rfl
  · split
    · split <;> rfl
    · rfl

theorem reclaimOne_lockedBelow (now ttl : Int) (p : PhoneInfo)
    (h : p.locked_by ≠ none → p.used_count < 2) :
    (reclaimOne now ttl p).locked_by ≠ none →
      (reclaimOne now ttl p).used_count < 2 := by
  unfold reclaimOne
  split
  · exact h
  · split
    · split
      · intro habs; simp at habs
      · exact h
    · exact h

theorem release_timed_out_numbers (now ttl : Int) :
    ∀ l : List PhoneInfo,
      phoneNumbers (release_timed_out_phones now ttl l) = phoneNumbers l
  | [] => rfl
  | p :: ps => by
    simp only [release_timed_out_phones, List.map_cons, phoneNumbers]
    have ih := release_timed_out_numbers now ttl ps
    simp only [release_timed_out_phones, phoneNumbers] at ih
    simp [reclaimOne_number, ih]

theorem lockedBelow_map (f : PhoneInfo → PhoneInfo)
    (hf : ∀ p : PhoneInfo, (p.locked_by ≠ none → p.used_count < 2) →
      ((f p).locked_by ≠ none → (f p).used_count < 2))
    (l : List PhoneInfo) (hl : LockedBelow l) : LockedBelow (l.map f) := by
  intro q hq
  simp only [List.mem_map] at hq
  obtain ⟨p, hp, rfl⟩ := hq
  exact hf p (hl p hp)

theorem updateFirst_numbers (n : String) (f : PhoneInfo → PhoneInfo)
    (hf : ∀ p, (f p).number = p.number) :
    ∀ l : List PhoneInfo, phoneNumbers (updateFirst n f l) = phoneNumbers l
  | [] => rfl
  | p :: ps => by
    by_cases h : p.number = n
    · simp [updateFirst, h, phoneNumbers, hf p]
    · simp only [updateFirst, if_neg h, phoneNumbers, List.map_cons]
      have ih := updateFirst_numbers n f hf ps
      simp only [phoneNumbers] at ih
      simp [ih]

theorem lockedBelow_updateFirst (n : String) (f : PhoneInfo → PhoneInfo)
    (hf : ∀ p : PhoneInfo, (p.locked_by ≠ none → p.used_count < 2) →
      ((f p).locked_by ≠ none → (f p).used_count < 2)) :
    ∀ l : List PhoneInfo, LockedBelow l → LockedBelow (updateFirst n f l)
  | [], _ => by intro q hq; cases hq
  | p :: ps, hl => by
    intro q hq
    by_cases h : p.number = n
    · simp only [updateFirst, if_pos h, List.mem_cons] at hq
      rcases hq with rfl | hq
      · exact hf p (hl p (by simp))
      · exact hl q (by simp [hq])
    · simp only [updateFirst, if_neg h, List.mem_cons] at hq
      rcases hq with rfl | hq
      · exact hl q (by simp)
      · exact lockedBelow_updateFirst n f hf ps
          (fun r hr => hl r (by simp [hr])) q hq

theorem lookupPhone_eq_some {l : List PhoneInfo} {n : String} {e : PhoneInfo}
    (h : lookupPhone l n = some e) : e ∈ l ∧ e.number = n := by
  refine ⟨List.mem_of_find?_eq_some h, ?_⟩
  have := List.find?_some h
  simpa using this

theorem lookupPhone_updateFirst (n : String) (f : PhoneInfo → PhoneInfo)
    (hf : ∀ p, (f p).number = p.number) :
    ∀ l : List PhoneInfo,
      lookupPhone (updateFirst n f l) n = (lookupPhone l n).map f
  | [] => rfl
  | p :: ps => by
    by_cases h : p.number = n
    · simp [updateFirst, h, lookupPhone, hf p]
    · rw [updateFirst, if_neg h]
      have ih := lookupPhone_updateFirst n f hf ps
      simp only [lookupPhone] at ih ⊢
      rw [List.find?_cons_of_neg _ (by simpa using h),
        List.find?_cons_of_neg _ (by simpa using h), ih]

theorem find_available_mem {pn : String} :
    ∀ l : List PhoneInfo, find_available_phone l = some pn →
      ∃ e ∈ l, e.number = pn ∧ e.used_count < 2 ∧ e.locked_by = none
  | [] => by intro h; cases h
  | p :: ps => by
    intro h
    by_cases h2 : p.used_count ≥ 2
    · rw [find_available_phone, if_pos h2] at h
      obtain ⟨e, he, hprops⟩ := find_available_mem ps h
      exact ⟨e, by simp [he], hprops⟩
    · by_cases h3 : p.locked_by = none
      · rw [find_available_phone, if_neg h2, if_pos h3] at h
        refine ⟨p, by simp, ?_, by omega, h3⟩
        exact (Option.some.inj h).symm ▸ rfl
      · rw [find_available_phone, if_neg h2, if_neg h3] at h
        obtain ⟨e, he, hprops⟩ := find_available_mem ps h
        exact ⟨e, by simp [he], hprops⟩

theorem find_available_lookup {pn : String} :
    ∀ l : List PhoneInfo, (phoneNumbers l).Nodup →
      find_available_phone l = some pn →
      ∃ e, lookupPhone l pn = some e ∧ e.used_count < 2 ∧ e.locked_by = none
  | [] => by intro _ h; cases h
  | p :: ps => by
    intro hnd h
    simp only [phoneNumbers, List.map_cons, List.nodup_cons] at hnd
    by_cases h2 : p.used_count ≥ 2
    · rw [find_available_phone, if_pos h2] at h
      obtain ⟨e, he, hn, _⟩ := find_available_mem ps h
      have hne : p.number ≠ pn := by
        intro habs
        exact hnd.1 (habs ▸ hn ▸ List.mem_map_of_mem PhoneInfo.number he)
      obtain ⟨e', he', hp'⟩ := find_available_lookup ps hnd.2 h
      refine ⟨e', ?_, hp'⟩
      simp only [lookupPhone] at he' ⊢
      rw [List.find?_cons_of_neg _ (by simpa using hne), he']
    · by_cases h3 : p.locked_by = none
      · rw [find_available_phone, if_neg h2, if_pos h3] at h
        have hpn : p.number = pn := Option.some.inj h
        exact ⟨p, by simp [lookupPhone, hpn], by omega, h3⟩
      · rw [find_available_phone, if_neg h2, if_neg h3] at h
        obtain ⟨e, he, hn, _⟩ := find_available_mem ps h
        have hne : p.number ≠ pn := by
          intro habs
          exact hnd.1 (habs ▸ hn ▸ List.mem_map_of_mem PhoneInfo.number he)
        obtain ⟨e', he', hp'⟩ := find_available_lookup ps hnd.2 h
        refine ⟨e', ?_, hp'⟩
        simp only [lookupPhone] at he' ⊢
        rw [List.find?_cons_of_neg _ (by simpa using hne), he']

theorem find_available_isSome {e : PhoneInfo} :
    ∀ l : List PhoneInfo, e ∈ l → e.used_count < 2 → e.locked_by = none →
      find_available_phone l ≠ none
  | [] => by intro h; cases h
  | p :: ps => by
    intro hmem hu hl
    rcases List.mem_cons.1 hmem with rfl | hmem'
    · rw [find_available_phone, if_neg (by omega), if_pos hl]
      simp
    · by_cases h2 : p.used_count ≥ 2
      · rw [find_available_phone, if_pos h2]
        exact find_available_isSome ps hmem' hu hl
      · by_cases h3 : p.locked_by = none
        · rw [find_available_phone, if_neg h2, if_pos h3]
          simp
        · rw [find_available_phone, if_neg h2, if_neg h3]
          exact find_available_isSome ps hmem' hu hl

theorem lockedBelow_lock_of_find (tid : String) (now : Int) {pn : String} :
    ∀ l : List PhoneInfo, (phoneNumbers l).Nodup → LockedBelow l →
      find_available_phone l = some pn →
      LockedBelow (updateFirst pn (lockUpdate tid now) l)
  | [] => by intro _ _ h; cases h
  | p :: ps => by
    intro hnd hl h
    simp only [phoneNumbers, List.map_cons, List.nodup_cons] at hnd
    have hltail : LockedBelow ps := fun r hr => hl r (by simp [hr])
    by_cases h2 : p.used_count ≥ 2
    · rw [find_available_phone, if_pos h2] at h
      obtain ⟨e, he, hn, _⟩ := find_available_mem ps h
      have hne : p.number ≠ pn := by
        intro habs
        exact hnd.1 (habs ▸ hn ▸ List.mem_map_of_mem PhoneInfo.number he)
      intro q hq
      rw [updateFirst, if_neg hne] at hq
      rcases List.mem_cons.1 hq with rfl | hq'
      · exact hl q (by simp)
      · exact lockedBelow_lock_of_find tid now ps hnd.2 hltail h q hq'
    · by_cases h3 : p.locked_by = none
      · rw [find_available_phone, if_neg h2, if_pos h3] at h
        have hpn : p.number = pn := Option.some.inj h
        intro q hq
        rw [updateFirst, if_pos hpn] at hq
        rcases List.mem_cons.1 hq with rfl | hq'
        · intro _
          simpa [lockUpdate] using Nat.lt_of_not_le h2
        · exact hl q (by simp [hq'])
      · rw [find_available_phone, if_neg h2, if_neg h3] at h
        obtain ⟨e, he, hn, _⟩ := find_available_mem ps h
        have hne : p.number ≠ pn := by
          intro habs
          exact hnd.1 (habs ▸ hn ▸ List.mem_map_of_mem PhoneInfo.number he)
        intro q hq
        rw [updateFirst, if_neg hne] at hq
        rcases List.mem_cons.1 hq with rfl | hq'
        · exact hl q (by simp)
        · exact lockedBelow_lock_of_find tid now ps hnd.2 hltail h q hq'

theorem dedupKeys_nodup : ∀ ns : List String, (dedupKeys ns).Nodup
  | [] => List.nodup_nil
  | n :: ns => by
    rw [dedupKeys, List.nodup_cons]
    constructor
    · intro h
      have := (List.mem_filter.1 h).2
      simp at this
    · exact (dedupKeys_nodup ns).filter _

theorem poolInv_release_timed_out (now ttl : Int) {l : List PhoneInfo}
    (hnd : (phoneNumbers l).Nodup) (hl : LockedBelow l) :
    (phoneNumbers (release_timed_out_phones now ttl l)).Nodup ∧
      LockedBelow (release_timed_out_phones now ttl l) := by
  refine ⟨by rw [release_timed_out_numbers]; exact hnd, ?_⟩
  show LockedBelow (l.map (reclaimOne now ttl))
  exact lockedBelow_map (reclaimOne now ttl)
    (fun p hp => reclaimOne_lockedBelow now ttl p hp) l hl

theorem poolInv_acquire_step (ttl : Int) (tid : String) (now : Int)
    (s : PMState) (h : PoolInv s) :
    PoolInv (acquire_phone_step ttl tid now s).2 := by
  obtain ⟨hnd, hl⟩ := h
  have h1 := poolInv_release_timed_out now ttl hnd hl
  rw [acquire_phone_step]
  cases hf : find_available_phone (release_timed_out_phones now ttl s.phones) with
  | none => exact ⟨h1.1, h1.2⟩
  | some pn =>
    by_cases hpn : pn = ""
    · simp only [hpn, ne_eq, not_true_eq_false, if_false]
      exact ⟨h1.1, h1.2⟩
    · simp only [ne_eq, hpn, not_false_eq_true, if_true]
      constructor
      · show (phoneNumbers (updateFirst pn (lockUpdate tid now)
          (release_timed_out_phones now ttl s.phones))).Nodup
        rw [updateFirst_numbers pn (lockUpdate tid now) (fun p => rfl)]
        exact h1.1
      · exact lockedBelow_lock_of_find tid now _ h1.1 h1.2 hf

theorem poolInv_release_phone (num tid : String) (success : Bool)
    (s : PMState) (h : PoolInv s) :
    PoolInv (release_phone num tid success s).2 := by
  obtain ⟨hnd, hl⟩ := h
  rw [release_phone]
  cases hlk : lookupPhone s.phones num with
  | none => exact ⟨hnd, hl⟩
  | some ph =>
    by_cases hown : ph.locked_by ≠ some tid
    · simp only [if_pos hown]
      exact ⟨hnd, hl⟩
    · simp only [if_neg hown]
      constructor
      · show (phoneNumbers (updateFirst num (releaseUpdate success)
          s.phones)).Nodup
        rw [updateFirst_numbers num (releaseUpdate success) (fun p => rfl)]
        exact hnd
      · exact lockedBelow_updateFirst num (releaseUpdate success)
          (fun p _ habs => absurd rfl habs) s.phones hl

theorem poolInv_init (nums : List String) : PoolInv (initState nums) := by
  constructor
  · show (((dedupKeys nums).map _).map PhoneInfo.number).Nodup
    rw [List.map_map]
    have : (PhoneInfo.number ∘ fun n => ({ number := n } : PhoneInfo)) = id := by
      funext n; rfl
    rw [this, List.map_id]
    exact dedupKeys_nodup nums
  · intro p hp hlk
    simp only [initState, List.mem_map] at hp
    obtain ⟨n, _, rfl⟩ := hp
    simp at hlk

theorem reachable_poolInv {ttl : Int} {nums : List String} {s : PMState}
    (h : PMReachable ttl nums s) : PoolInv s := by
  induction h with
  | refl => exact poolInv_init nums
  | tail _ hstep ih =>
    cases hstep with
    | acquire tid now _ => exact poolInv_acquire_step ttl tid now _ ih
    | release num tid success _ =>
      exact poolInv_release_phone num tid success _ ih
    | reclaim now _ =>
      exact ⟨(poolInv_release_timed_out now ttl ih.1 ih.2).1,
             (poolInv_release_timed_out now ttl ih.1 ih.2).2⟩

theorem length_eq_parts :
    ∀ l : List PhoneInfo, LockedBelow l →
      l.length =
        (l.filter
          (fun p => decide (p.used_count < 2) && p.locked_by.isNone)).length +
        (l.filter (fun p => p.locked_by.isSome)).length +
        (l.filter (fun p => decide (p.used_count ≥ 2))).length
  | [] => by intro _; simp
  | p :: ps => by
    intro hl
    have ih := length_eq_parts ps (fun r hr => hl r (by simp [hr]))
    cases hpl : p.locked_by with
    | some b =>
      have hu : p.used_count < 2 := hl p (by simp) (by simp [hpl])
      have h2 : ¬ p.used_count ≥ 2 := by omega
      simp [List.filter_cons, hpl, hu, h2, ih]
      omega
    | none =>
      by_cases hu : p.used_count < 2
      · have h2 : ¬ p.used_count ≥ 2 := by omega
        simp [List.filter_cons, hpl, hu, h2, ih]
        omega
      · have h2 : p.used_count ≥ 2 := by omega
        simp [List.filter_cons, hpl, hu, h2, ih]
        omega

/-! ### Claim theorems -/

/-- Holder of a phone in a `PhoneManager` state. -/
def holderOf (s : PMState) (pn : String) : Option String :=
  (lookupPhone s.phones pn).bind PhoneInfo.locked_by

/-- Holder of a phone in a `HeroSMSPhoneManager` state. -/
def hsHolderOf (s : HSState) (pn : String) : Option String :=
  (lookupPhone s.phones pn).bind PhoneInfo.locked_by

/-- Lease timestamp of a phone in a `HeroSMSPhoneManager` state. -/
def hsLeasedAt (s : HSState) (pn : String) : Option Int :=
  (lookupPhone s.phones pn).bind PhoneInfo.locked_at

/-- C1: Mutual exclusion of leases.  In every pool state (with the dict's
distinct keys) each phone has at most one holder — `locked_by` is a single
optional requester id — and an `acquire_phone` iteration that returns a
phone only selects one whose `locked_by` is `None` after the reclaim sweep
(never one currently held by a different requester), setting its
`locked_by` to the requester in the same step. -/
theorem acquire_mutual_exclusion (ttl now : Int) (tid : String) (s : PMState)
    (hnd : (phoneNumbers s.phones).Nodup) :
    (∀ pn r1 r2, holderOf s pn = some r1 → holderOf s pn = some r2 →
      r1 = r2) ∧
    ∀ pn s', acquire_phone_step ttl tid now s = (some pn, s') →
      (∃ e, lookupPhone (release_timed_out_phones now ttl s.phones) pn =
          some e ∧ e.locked_by = none ∧ e.used_count < 2) ∧
      holderOf s' pn = some tid := by
  constructor
  · intro pn r1 r2 h1 h2
    rw [h1] at h2
    exact Option.some.inj h2
  · intro pn s' hstep
    rw [acquire_phone_step] at hstep
    cases hf : find_available_phone (release_timed_out_phones now ttl s.phones) with
    | none => rw [hf] at hstep; cases hstep
    | some pn' =>
      rw [hf] at hstep
      by_cases hpn' : pn' = ""
      · simp [hpn'] at hstep
      · simp only [ne_eq, hpn', not_false_eq_true, if_true,
          Prod.mk.injEq] at hstep
        obtain ⟨hpe, hse⟩ := hstep
        have hpn : pn' = pn := Option.some.inj hpe
        subst hpn
        have hnd1 : (phoneNumbers
            (release_timed_out_phones now ttl s.phones)).Nodup := by
          rw [release_timed_out_numbers]; exact hnd
        obtain ⟨e, he, hu, hlk⟩ := find_available_lookup _ hnd1 hf
        refine ⟨⟨e, he, hlk, hu⟩, ?_⟩
        rw [← hse, holderOf]
        show ((lookupPhone (updateFirst pn' (lockUpdate tid now)
          (release_timed_out_phones now ttl s.phones)) pn').bind
            PhoneInfo.locked_by) = some tid
        rw [lookupPhone_updateFirst pn' (lockUpdate tid now) (fun p => rfl),
          he]
        rfl

theorem acquire_mutual_exclusion_witness :
    (∃ e, lookupPhone
        (release_timed_out_phones 0 300 (initState ["a"]).phones) "a" =
        some e ∧ e.locked_by = none ∧ e.used_count < 2) ∧
    holderOf (acquire_phone_step 300 "T" 0 (initState ["a"])).2 "a" =
      some "T" :=
  (acquire_mutual_exclusion 300 0 "T" (initState ["a"]) (by decide)).2 "a"
    (acquire_phone_step 300 "T" 0 (initState ["a"])).2 (by decide)

/-- C10: Stats partition.  In every reachable `PhoneManager` state, every
phone with a holder has `used_count` strictly below the exhaustion
threshold, so the three categories of `get_stats` are disjoint and
exhaustive: `total_phones = available + locked + exhausted`. -/
theorem stats_partition (ttl : Int) (nums : List String) (s : PMState)
    (h : PMReachable ttl nums s) :
    LockedBelow s.phones ∧
      (get_stats s).total_phones =
        (get_stats s).available + (get_stats s).locked +
          (get_stats s).exhausted := by
  have hinv := reachable_poolInv h
  exact ⟨hinv.2, by simpa [get_stats] using length_eq_parts s.phones hinv.2⟩

theorem stats_partition_witness :
    LockedBelow (initState ["a", "b"]).phones ∧
      (get_stats (initState ["a", "b"])).total_phones =
        (get_stats (initState ["a", "b"])).available +
          (get_stats (initState ["a", "b"])).locked +
          (get_stats (initState ["a", "b"])).exhausted :=
  stats_partition 300 ["a", "b"] (initState ["a", "b"])
    Relation.ReflTransGen.refl

theorem release_phone_eq (num tid : String) (success : Bool) (s : PMState)
    (ph : PhoneInfo) (hlk : lookupPhone s.phones num = some ph)
    (hown : ph.locked_by = some tid) :
    release_phone num tid success s =
      (true,
        { s with
          phones := updateFirst num (releaseUpdate success) s.phones
          total_released := s.total_released + 1 }) := by
  rw [release_phone, hlk]
  simp [hown]

theorem hero_release_phone_eq (num tid : String) (success : Bool)
    (s : HSState) (ph : PhoneInfo) (hlk : lookupPhone s.phones num = some ph)
    (hown : ph.locked_by = some tid) :
    hero_release_phone num tid success s =
      (true,
        { s with
          phones := updateFirst num (releaseUpdate success) s.phones
          total_released := s.total_released + 1 }) := by
  rw [hero_release_phone, hlk]
  simp [hown]

/-- C3: Release semantics.  For a phone held by requester `tid`
(in either a `PhoneManager` or a `HeroSMSPhoneManager`),
`release_phone(phone, tid, success=True)` returns `True`, increments that
phone's `used_count` by exactly 1 and clears `locked_by`/`locked_at`;
`release_phone(phone, tid, success=False)` returns `True`, leaves
`used_count` unchanged, clears the lease, and — when the phone is not
exhausted — the availability scan of the next `acquire_phone` call finds a
phone. -/
theorem release_semantics
    (s : PMState) (hs : HSState) (num hnum tid htid : String)
    (ph hph : PhoneInfo)
    (hlk : lookupPhone s.phones num = some ph)
    (hown : ph.locked_by = some tid)
    (hhlk : lookupPhone hs.phones hnum = some hph)
    (hhown : hph.locked_by = some htid) :
    ((release_phone num tid true s).1 = true ∧
      ∃ e, lookupPhone (release_phone num tid true s).2.phones num = some e ∧
        e.used_count = ph.used_count + 1 ∧ e.locked_by = none ∧
        e.locked_at = none) ∧
    ((release_phone num tid false s).1 = true ∧
      ∃ e, lookupPhone (release_phone num tid false s).2.phones num =
          some e ∧
        e.used_count = ph.used_count ∧ e.locked_by = none ∧
        e.locked_at = none ∧
        (ph.used_count < 2 →
          find_available_phone (release_phone num tid false s).2.phones ≠
            none)) ∧
    ((hero_release_phone hnum htid true hs).1 = true ∧
      ∃ e, lookupPhone (hero_release_phone hnum htid true hs).2.phones hnum =
          some e ∧
        e.used_count = hph.used_count + 1 ∧ e.locked_by = none ∧
        e.locked_at = none) ∧
    ((hero_release_phone hnum htid false hs).1 = true ∧
      ∃ e, lookupPhone
          (hero_release_phone hnum htid false hs).2.phones hnum = some e ∧
        e.used_count = hph.used_count ∧ e.locked_by = none ∧
        e.locked_at = none ∧
        (hph.used_count < 2 →
          find_available_phone
            (hero_release_phone hnum htid false hs).2.phones ≠ none)) := by
  have hb1 := release_phone_eq num tid true s ph hlk hown
  have hb2 := release_phone_eq num tid false s ph hlk hown
  have hh1 := hero_release_phone_eq hnum htid true hs hph hhlk hhown
  have hh2 := hero_release_phone_eq hnum htid false hs hph hhlk hhown
  refine ⟨⟨by rw [hb1], ?_⟩, ⟨by rw [hb2], ?_⟩,
    ⟨by rw [hh1], ?_⟩, ⟨by rw [hh2], ?_⟩⟩
  · refine ⟨releaseUpdate true ph, ?_, by simp [releaseUpdate], rfl, rfl⟩
    rw [hb1]
    show lookupPhone (updateFirst num (releaseUpdate true) s.phones) num = _
    rw [lookupPhone_updateFirst num (releaseUpdate true) (fun p => rfl), hlk]
    rfl
  · have hlk' : lookupPhone
        (release_phone num tid false s).2.phones num =
        some (releaseUpdate false ph) := by
      rw [hb2]
      show lookupPhone (updateFirst num (releaseUpdate false) s.phones) num = _
      rw [lookupPhone_updateFirst num (releaseUpdate false) (fun p => rfl),
        hlk]
      rfl
    refine ⟨releaseUpdate false ph, hlk', by simp [releaseUpdate], rfl, rfl,
      fun hu => ?_⟩
    exact find_available_isSome _ (List.mem_of_find?_eq_some hlk')
      (by simpa [releaseUpdate] using hu) rfl
  · refine ⟨releaseUpdate true hph, ?_, by simp [releaseUpdate], rfl, rfl⟩
    rw [hh1]
    show lookupPhone (updateFirst hnum (releaseUpdate true) hs.phones) hnum = _
    rw [lookupPhone_updateFirst hnum (releaseUpdate true) (fun p => rfl),
      hhlk]
    rfl
  · have hlk' : lookupPhone
        (hero_release_phone hnum htid false hs).2.phones hnum =
        some (releaseUpdate false hph) := by
      rw [hh2]
      show lookupPhone (updateFirst hnum (releaseUpdate false) hs.phones)
        hnum = _
      rw [lookupPhone_updateFirst hnum (releaseUpdate false) (fun p => rfl),
        hhlk]
      rfl
    refine ⟨releaseUpdate false hph, hlk', by simp [releaseUpdate], rfl, rfl,
      fun hu => ?_⟩
    exact find_available_isSome _ (List.mem_of_find?_eq_some hlk')
      (by simpa [releaseUpdate] using hu) rfl

/-- A phone held by requester `T` since time 0, used for the witness
states. -/
def phoneHeldT : PhoneInfo :=
  { number := "a"
    used_count := 0
    locked_by := some "T"
    locked_at := some 0 }

/-- A one-phone `PhoneManager` state whose phone is held by `T`. -/
def pmHeld : PMState := { phones := [phoneHeldT] }

/-- A one-phone `HeroSMSPhoneManager` state whose phone is held by `T`. -/
def hsHeld : HSState := { phones := [phoneHeldT] }

theorem release_semantics_witness :
    ((release_phone "a" "T" true pmHeld).1 = true ∧
      ∃ e, lookupPhone (release_phone "a" "T" true pmHeld).2.phones "a" =
          some e ∧
        e.used_count = phoneHeldT.used_count + 1 ∧ e.locked_by = none ∧
        e.locked_at = none) ∧
    ((release_phone "a" "T" false pmHeld).1 = true ∧
      ∃ e, lookupPhone (release_phone "a" "T" false pmHeld).2.phones "a" =
          some e ∧
        e.used_count = phoneHeldT.used_count ∧ e.locked_by = none ∧
        e.locked_at = none ∧
        (phoneHeldT.used_count < 2 →
          find_available_phone (release_phone "a" "T" false pmHeld).2.phones ≠
            none)) ∧
    ((hero_release_phone "a" "T" true hsHeld).1 = true ∧
      ∃ e, lookupPhone (hero_release_phone "a" "T" true hsHeld).2.phones "a" =
          some e ∧
        e.used_count = phoneHeldT.used_count + 1 ∧ e.locked_by = none ∧
        e.locked_at = none) ∧
    ((hero_release_phone "a" "T" false hsHeld).1 = true ∧
      ∃ e, lookupPhone
          (hero_release_phone "a" "T" false hsHeld).2.phones "a" = some e ∧
        e.used_count = phoneHeldT.used_count ∧ e.locked_by = none ∧
        e.locked_at = none ∧
        (phoneHeldT.used_count < 2 →
          find_available_phone
            (hero_release_phone "a" "T" false hsHeld).2.phones ≠ none)) :=
  release_semantics pmHeld hsHeld "a" "a" "T" "T" phoneHeldT phoneHeldT
    (by decide) (by decide) (by decide) (by decide)

/-- C4: Release validation is atomic.  For any pool state (base or
HeroSMS), any requester `tid` and any `phone_number`, if the number is not
in the table or the phone's `locked_by` differs from `tid`, then
`release_phone` returns `False` and the entire pool state — all phones and
the counters — is unchanged. -/
theorem release_validation_no_mutation
    (s : PMState) (hs : HSState) (num tid : String) (success : Bool) :
    ((lookupPhone s.phones num = none ∨
        ∃ ph, lookupPhone s.phones num = some ph ∧ ph.locked_by ≠ some tid) →
      release_phone num tid success s = (false, s)) ∧
    ((lookupPhone hs.phones num = none ∨
        ∃ ph, lookupPhone hs.phones num = some ph ∧
          ph.locked_by ≠ some tid) →
      hero_release_phone num tid success hs = (false, hs)) := by
  constructor
  · intro h
    rcases h with h | ⟨ph, hlk, hown⟩
    · rw [release_phone, h]
    · rw [release_phone, hlk]
      simp [hown]
  · intro h
    rcases h with h | ⟨ph, hlk, hown⟩
    · rw [hero_release_phone, h]
    · rw [hero_release_phone, hlk]
      simp [hown]

theorem release_validation_no_mutation_witness :
    (release_phone "a" "X" true pmHeld = (false, pmHeld) ∧
      release_phone "zz" "T" true pmHeld = (false, pmHeld)) ∧
    hero_release_phone "a" "X" false hsHeld = (false, hsHeld) :=
  ⟨⟨(release_validation_no_mutation pmHeld hsHeld "a" "X" true).1
      (Or.inr ⟨phoneHeldT, by decide, by decide⟩),
    (release_validation_no_mutation pmHeld hsHeld "zz" "T" true).1
      (Or.inl (by decide))⟩,
    (release_validation_no_mutation pmHeld hsHeld "a" "X" false).2
      (Or.inr ⟨phoneHeldT, by decide, by decide⟩)⟩

/-- A phone held by requester id `""` since time 0 — produced by
`acquire_phone(thread_id="")` — non-exhausted and long expired. -/
def emptyHolderPhone : PhoneInfo :=
  { number := "p"
    used_count := 0
    locked_by := some ""
    locked_at := some 0 }

/-- C5 counterexample: the claim says one sweep frees and charges every
non-exhausted phone whose `locked_by` and `locked_at` are set and whose
lease is older than TTL; but for a phone held by the empty-string
requester id the sweep leaves the phone untouched, because
`if phone.locked_by and phone.locked_at:` relies on truthiness and `""` is
falsy.  The state is reachable: one `acquire_phone` iteration with
`thread_id=""` on a fresh one-phone pool produces exactly this phone. -/
theorem timeout_reclaim_skips_empty_holder :
    (acquire_phone_step 10 "" 0 (initState ["p"])).2.phones =
      [emptyHolderPhone] ∧
    emptyHolderPhone.used_count < 2 ∧
    emptyHolderPhone.locked_by ≠ none ∧
    emptyHolderPhone.locked_at ≠ none ∧
    (1000 : Int) - 0 > 10 ∧
    release_timed_out_phones 1000 10 [emptyHolderPhone] =
      [emptyHolderPhone] := by
  decide

/-- C5 (amended): one sweep of `_release_timed_out_phones` transforms every
non-exhausted phone whose `locked_by` is a **non-empty** requester id and
whose `locked_at` is set with `now − locked_at > TTL` by clearing
`locked_by`/`locked_at` and incrementing `used_count` by exactly 1, and
leaves every other phone (exhausted, unheld, held by the empty-string id,
without a lease time, or within TTL) unchanged. -/
theorem timeout_reclaim_sweep (now ttl : Int) (l : List PhoneInfo)
    (p : PhoneInfo) (b : String) (t : Int) :
    (p.used_count < 2 → p.locked_by = some b → b ≠ "" →
      p.locked_at = some t → now - t > ttl →
      reclaimOne now ttl p =
        { p with locked_by := none, locked_at := none,
                 used_count := p.used_count + 1 }) ∧
    (p.used_count ≥ 2 → reclaimOne now ttl p = p) ∧
    (p.locked_by = none → reclaimOne now ttl p = p) ∧
    (p.locked_by = some "" → reclaimOne now ttl p = p) ∧
    (p.locked_at = none → reclaimOne now ttl p = p) ∧
    (p.locked_at = some t → now - t ≤ ttl → reclaimOne now ttl p = p) ∧
    release_timed_out_phones now ttl l = l.map (reclaimOne now ttl) := by
  refine ⟨?_, ?_, ?_, ?_, ?_, ?_, rfl⟩
  · intro hu hb hbne ht hgt
    have h2 : ¬ p.used_count ≥ 2 := by omega
    rw [reclaimOne, if_neg h2, hb, ht]
    simp [hbne, hgt]
  · intro h2
    rw [reclaimOne, if_pos h2]
  · intro hb
    rw [reclaimOne, hb]
    split
    · rfl
    · cases p.locked_at <;> rfl
  · intro hb
    rw [reclaimOne, hb]
    split
    · rfl
    · cases p.locked_at <;> simp
  · intro ht
    rw [reclaimOne, ht]
    split
    · rfl
    · cases p.locked_by <;> rfl
  · intro ht hle
    rw [reclaimOne, ht]
    split
    · rfl
    · cases p.locked_by with
      | none => rfl
      | some b' =>
        have hcond : ¬ (b' ≠ "" ∧ now - t > ttl) := by
          intro h
          omega
        simp [hcond]

theorem timeout_reclaim_sweep_witness :
    reclaimOne 1000 10
        { number := "p", used_count := 0, locked_by := some "w",
          locked_at := some 0 } =
      { number := "p", used_count := 1, locked_by := none,
        locked_at := none } ∧
    reclaimOne 1000 10 emptyHolderPhone = emptyHolderPhone :=
  ⟨(timeout_reclaim_sweep 1000 10 []
      { number := "p", used_count := 0, locked_by := some "w",
        locked_at := some 0 } "w" 0).1
      (by decide) (by decide) (by decide) (by decide) (by decide),
    (timeout_reclaim_sweep 1000 10 [] emptyHolderPhone "" 0).2.2.2.1
      (by decide)⟩

/-- The C2 failing input: a `HeroSMSPhoneManager(max_uses=1, pool_size=0)`
whose only phone has `used_count = 1 = max_uses` and no holder. -/
def exhaustedAtOne : PhoneInfo := { number := "p", used_count := 1 }

/-- Pool state of the C2 failing input. -/
def bugState : HSState := { phones := [exhaustedAtOne] }

/-- A provisioner whose every `get_number_v2` call succeeds. -/
def provOk : Nat → NumResp := fun _ => NumResp.ok "q" "a1"

/-- C2 is violated by the code: with `max_uses = 1`, a phone whose
`used_count` already equals `max_uses` is still returned by
`acquire_phone` — the inherited `_find_available_phone` hardcodes the
bound `2` instead of using `self.max_uses` — and a subsequent successful
release drives `used_count` to `2 > max_uses`, breaking
`usage_count ≤ max_uses`. -/
theorem herosms_exhaustion_bug :
    exhaustedAtOne.used_count = 1 ∧
    (hero_acquire_phone_step 1 0 300 provOk "T" 5 bugState).1 = some "p" ∧
    (lookupPhone
        (hero_release_phone "p" "T" true
          (hero_acquire_phone_step 1 0 300 provOk "T" 5 bugState).2).2.phones
        "p").map PhoneInfo.used_count = some 2 := by
  decide

/-- The acquire iteration in the order the CLAIM (and the spec) states it:
reclaim sweep first, then refill, then scan.  Written only for comparison
with the source's `hero_acquire_phone_step`, which refills first. -/
def hero_acquire_step_claim_order (maxUses poolSize : Nat) (ttl : Int)
    (prov : Nat → NumResp) (tid : String) (now : Int) (s : HSState) :
    Option String × HSState :=
  let s0 := { s with phones := release_timed_out_phones now ttl s.phones }
  let s1 := refill_pool maxUses poolSize prov s0
  match find_available_phone s1.phones with
  | some pn =>
    if pn ≠ "" then
      (some pn,
        { s1 with
          phones := updateFirst pn (lockUpdate tid now) s1.phones,
          total_acquired := s1.total_acquired + 1 })
    else (none, s1)
  | none => (none, s1)

/-- A phone leased by `w` at time 0 and long expired at time 1000. -/
def lockedExpiredPhone : PhoneInfo :=
  { number := "p"
    used_count := 0
    locked_by := some "w"
    locked_at := some 0 }

/-- Pool state for the C6 counterexample. -/
def orderCexState : HSState := { phones := [lockedExpiredPhone] }

/-- C6 counterexample: the claim says every `acquire_phone` iteration
first runs the timeout-reclaim sweep, then the refill top-up; the code of
`HeroSMSPhoneManager.acquire_phone` runs the refill first.  On a
one-phone pool (`pool_size = 1`) whose only phone is expired, the code's
iteration makes one provisioner request and ends with two phones, while
the claim's order would reclaim the phone first, count it available, and
make no provisioner request. -/
theorem hero_acquire_order_cex :
    (hero_acquire_phone_step 2 1 10 provOk "T" 1000 orderCexState).2.provIdx
      = 1 ∧
    (hero_acquire_step_claim_order 2 1 10 provOk "T" 1000
      orderCexState).2.provIdx = 0 ∧
    (hero_acquire_phone_step 2 1 10 provOk "T" 1000
      orderCexState).2.phones.length = 2 ∧
    (hero_acquire_step_claim_order 2 1 10 provOk "T" 1000
      orderCexState).2.phones.length = 1 := by
  decide

/-- C6 (amended): Acquire loop contract.  Every iteration of
`HeroSMSPhoneManager.acquire_phone` first runs the refill top-up, **then**
the timeout-reclaim sweep, then scans; whenever it returns a phone, that
phone is the scan's result on the refilled-and-reclaimed table, its holder
is set to the requester and its lease time to now, `total_acquired` is
incremented, and no further provisioner call is made; and whenever an
iteration finds nothing and `maxWait` has elapsed, `acquire_phone`
(HeroSMS or base) returns `none` rather than raising an exception. -/
theorem hero_acquire_loop_contract (maxUses poolSize : Nat) (ttl : Int)
    (prov : Nat → NumResp) (tid : String) (now : Int) (s : HSState) :
    (∀ pn s',
      hero_acquire_phone_step maxUses poolSize ttl prov tid now s =
        (some pn, s') →
      find_available_phone (release_timed_out_phones now ttl
        (refill_pool maxUses poolSize prov s).phones) = some pn ∧
      hsHolderOf s' pn = some tid ∧
      hsLeasedAt s' pn = some now ∧
      s'.total_acquired =
        (refill_pool maxUses poolSize prov s).total_acquired + 1 ∧
      s'.provIdx = (refill_pool maxUses poolSize prov s).provIdx) ∧
    (∀ endTime rest s'',
      hero_acquire_phone_step maxUses poolSize ttl prov tid now s =
        (none, s'') →
      endTime - now ≤ 0 →
      hero_acquire_phone_loop maxUses poolSize ttl prov tid endTime
        (now :: rest) s = (none, s'')) ∧
    (∀ (ps ps'' : PMState) endTime rest,
      acquire_phone_step ttl tid now ps = (none, ps'') →
      endTime - now ≤ 0 →
      acquire_phone_loop ttl tid endTime (now :: rest) ps =
        (none, ps'')) := by
  refine ⟨?_, ?_, ?_⟩
  · intro pn s' hstep
    rw [hero_acquire_phone_step] at hstep
    cases hf : find_available_phone (release_timed_out_phones now ttl
        (refill_pool maxUses poolSize prov s).phones) with
    | none => rw [hf] at hstep; cases hstep
    | some pn' =>
      rw [hf] at hstep
      by_cases hpn' : pn' = ""
      · simp [hpn'] at hstep
      · simp only [ne_eq, hpn', not_false_eq_true, if_true,
          Prod.mk.injEq] at hstep
        obtain ⟨hpe, hse⟩ := hstep
        have hpn : pn' = pn := Option.some.inj hpe
        subst hpn
        obtain ⟨e, he, hn, _⟩ := find_available_mem _ hf
        have hsome : (lookupPhone (release_timed_out_phones now ttl
            (refill_pool maxUses poolSize prov s).phones) pn').isSome := by
          rw [lookupPhone, List.find?_isSome]
          exact ⟨e, he, by simp [hn]⟩
        obtain ⟨e', he'⟩ := Option.isSome_iff_exists.1 hsome
        refine ⟨rfl, ?_, ?_, ?_, ?_⟩
        · rw [← hse, hsHolderOf]
          show ((lookupPhone (updateFirst pn' (lockUpdate tid now)
            (release_timed_out_phones now ttl
              (refill_pool maxUses poolSize prov s).phones)) pn').bind
                PhoneInfo.locked_by) = some tid
          rw [lookupPhone_updateFirst pn' (lockUpdate tid now)
            (fun p => rfl), he']
          rfl
        · rw [← hse, hsLeasedAt]
          show ((lookupPhone (updateFirst pn' (lockUpdate tid now)
            (release_timed_out_phones now ttl
              (refill_pool maxUses poolSize prov s).phones)) pn').bind
                PhoneInfo.locked_at) = some now
          rw [lookupPhone_updateFirst pn' (lockUpdate tid now)
            (fun p => rfl), he']
          rfl
        · rw [← hse]
        · rw [← hse]
  · intro endTime rest s'' hstep hle
    rw [hero_acquire_phone_loop, hstep]
    simp [hle]
  · intro ps ps'' endTime rest hstep hle
    rw [acquire_phone_loop, hstep]
    simp [hle]

/-- The empty `HeroSMSPhoneManager` pool used by the C6 witness. -/
def hsEmpty : HSState := { phones := [] }

theorem hero_acquire_loop_contract_witness :
    (find_available_phone (release_timed_out_phones 0 300
        (refill_pool 2 1 provOk hsEmpty).phones) = some "q" ∧
      hsHolderOf (hero_acquire_phone_step 2 1 300 provOk "T" 0 hsEmpty).2
          "q" = some "T" ∧
      hsLeasedAt (hero_acquire_phone_step 2 1 300 provOk "T" 0 hsEmpty).2
          "q" = some 0 ∧
      (hero_acquire_phone_step 2 1 300 provOk "T" 0 hsEmpty).2.total_acquired
        = (refill_pool 2 1 provOk hsEmpty).total_acquired + 1 ∧
      (hero_acquire_phone_step 2 1 300 provOk "T" 0 hsEmpty).2.provIdx =
        (refill_pool 2 1 provOk hsEmpty).provIdx) ∧
    acquire_phone_loop 300 "T" 0 [5] pmHeld =
      (none, (acquire_phone_step 300 "T" 5 pmHeld).2) :=
  ⟨(hero_acquire_loop_contract 2 1 300 provOk "T" 0 hsEmpty).1 "q"
      (hero_acquire_phone_step 2 1 300 provOk "T" 0 hsEmpty).2 (by decide),
    (hero_acquire_loop_contract 2 1 300 provOk "T" 5 hsEmpty).2.2 pmHeld
      (acquire_phone_step 300 "T" 5 pmHeld).2 0 [] (by decide) (by decide)⟩

/-- Whether a `get_number_v2` response takes the
`result['status'] == 'success'` branch of the refill loop. -/
def isOkResp : NumResp → Bool
  | NumResp.ok _ _ => true
  | NumResp.fail => false
  | NumResp.exc => false

theorem fetchNumbers_idx_le (prov : Nat → NumResp) :
    ∀ (n idx : Nat) (phones : List PhoneInfo)
      (amap : List (String × String)),
      (fetchNumbers prov n idx phones amap).idx ≤ idx + n
  | 0, idx, phones, amap => by simp [fetchNumbers]
  | n + 1, idx, phones, amap => by
    cases hp : prov idx with
    | ok num actId =>
      simp only [fetchNumbers, hp]
      have ih := fetchNumbers_idx_le prov n (idx + 1)
        (dictInsert phones
          { number := num, activation_id := some actId,
            activation_data := some (NumResp.ok num actId) })
        (assocInsert amap num actId)
      omega
    | fail => simp only [fetchNumbers, hp]; omega
    | exc => simp only [fetchNumbers, hp]; omega

theorem fetchNumbers_idx_all_ok (prov : Nat → NumResp) :
    ∀ (n idx : Nat) (phones : List PhoneInfo)
      (amap : List (String × String)),
      (∀ k, k < n → isOkResp (prov (idx + k)) = true) →
      (fetchNumbers prov n idx phones amap).idx = idx + n
  | 0, idx, phones, amap, _ => by simp [fetchNumbers]
  | n + 1, idx, phones, amap, h => by
    have h0 : isOkResp (prov idx) = true := by simpa using h 0 (by omega)
    cases hp : prov idx with
    | ok num actId =>
      simp only [fetchNumbers, hp]
      have ih := fetchNumbers_idx_all_ok prov n (idx + 1)
        (dictInsert phones
          { number := num, activation_id := some actId,
            activation_data := some (NumResp.ok num actId) })
        (assocInsert amap num actId)
        (fun k hk => by
          have := h (k + 1) (by omega)
          rwa [show idx + (k + 1) = idx + 1 + k by omega] at this)
      rw [ih]
      omega
    | fail => rw [hp] at h0; simp [isOkResp] at h0
    | exc => rw [hp] at h0; simp [isOkResp] at h0

theorem fetchNumbers_idx_first_fail (prov : Nat → NumResp) :
    ∀ (j n idx : Nat) (phones : List PhoneInfo)
      (amap : List (String × String)),
      j < n →
      (∀ k, k < j → isOkResp (prov (idx + k)) = true) →
      isOkResp (prov (idx + j)) = false →
      (fetchNumbers prov n idx phones amap).idx = idx + j + 1
  | 0, n, idx, phones, amap => by
    intro hj hok hfail
    cases n with
    | zero => omega
    | succ m =>
      rw [Nat.add_zero] at hfail
      cases hp : prov idx with
      | ok num actId => rw [hp] at hfail; simp [isOkResp] at hfail
      | fail => simp [fetchNumbers, hp]
      | exc => simp [fetchNumbers, hp]
  | j + 1, n, idx, phones, amap => by
    intro hj hok hfail
    cases n with
    | zero => omega
    | succ m =>
      have h0 : isOkResp (prov idx) = true := by simpa using hok 0 (by omega)
      cases hp : prov idx with
      | ok num actId =>
        simp only [fetchNumbers, hp]
        have ih := fetchNumbers_idx_first_fail prov j m (idx + 1)
          (dictInsert phones
            { number := num, activation_id := some actId,
              activation_data := some (NumResp.ok num actId) })
          (assocInsert amap num actId)
          (by omega)
          (fun k hk => by
            have := hok (k + 1) (by omega)
            rwa [show idx + (k + 1) = idx + 1 + k by omega] at this)
          (by rwa [show idx + 1 + j = idx + (j + 1) by omega])
        rw [ih]
        omega
      | fail => rw [hp] at h0; simp [isOkResp] at h0
      | exc => rw [hp] at h0; simp [isOkResp] at h0

theorem mem_updateFirst {q : PhoneInfo} (n : String)
    (f : PhoneInfo → PhoneInfo) :
    ∀ l, q ∈ updateFirst n f l → q ∈ l ∨ ∃ p, p ∈ l ∧ q = f p
  | [] => by intro h; cases h
  | p :: ps => by
    intro h
    by_cases hn : p.number = n
    · rw [updateFirst, if_pos hn] at h
      rcases List.mem_cons.1 h with rfl | h'
      · exact Or.inr ⟨p, by simp, rfl⟩
      · exact Or.inl (by simp [h'])
    · rw [updateFirst, if_neg hn] at h
      rcases List.mem_cons.1 h with rfl | h'
      · exact Or.inl (by simp)
      · rcases mem_updateFirst n f ps h' with h'' | ⟨p', hp', rfl⟩
        · exact Or.inl (by simp [h''])
        · exact Or.inr ⟨p', by simp [hp'], rfl⟩

theorem mem_dictInsert {q ph : PhoneInfo} (l : List PhoneInfo)
    (h : q ∈ dictInsert l ph) : q ∈ l ∨ q = ph := by
  rw [dictInsert] at h
  split at h
  · rcases mem_updateFirst ph.number (fun _ => ph) l h with h' | ⟨p', _, rfl⟩
    · exact Or.inl h'
    · exact Or.inr rfl
  · rcases List.mem_append.1 h with h' | h'
    · exact Or.inl h'
    · exact Or.inr (by simpa using h')

theorem fetchNumbers_fresh (prov : Nat → NumResp) :
    ∀ (n idx : Nat) (phones : List PhoneInfo)
      (amap : List (String × String)),
      ∀ q ∈ (fetchNumbers prov n idx phones amap).phones,
        q ∈ phones ∨
          (q.used_count = 0 ∧ q.locked_by = none ∧ q.locked_at = none)
  | 0, idx, phones, amap => by
    intro q hq
    exact Or.inl hq
  | n + 1, idx, phones, amap => by
    intro q hq
    cases hp : prov idx with
    | ok num actId =>
      simp only [fetchNumbers, hp] at hq
      rcases fetchNumbers_fresh prov n (idx + 1) _ _ q hq with h' | h'
      · rcases mem_dictInsert phones h' with h'' | rfl
        · exact Or.inl h''
        · exact Or.inr ⟨rfl, rfl, rfl⟩
      · exact Or.inr h'
    | fail =>
      simp only [fetchNumbers, hp] at hq
      exact Or.inl hq
    | exc =>
      simp only [fetchNumbers, hp] at hq
      exact Or.inl hq

theorem mem_numbers_updateFirst_const (ph : PhoneInfo) {n' : String} :
    ∀ l, n' ∈ phoneNumbers l →
      n' ∈ phoneNumbers (updateFirst ph.number (fun _ => ph) l)
  | [] => by intro h; simp [phoneNumbers] at h
  | p :: ps => by
    intro h
    have h' : n' = p.number ∨ n' ∈ phoneNumbers ps := by
      simpa [phoneNumbers] using h
    by_cases hn : p.number = ph.number
    · rw [updateFirst, if_pos hn]
      rcases h' with rfl | h''
      · simp [phoneNumbers, hn]
      · simp only [phoneNumbers, List.map_cons, List.mem_cons]
        exact Or.inr (by simpa [phoneNumbers] using h'')
    · rw [updateFirst, if_neg hn]
      rcases h' with rfl | h''
      · simp [phoneNumbers]
      · simp only [phoneNumbers, List.map_cons, List.mem_cons]
        exact Or.inr (by
          simpa [phoneNumbers] using
            mem_numbers_updateFirst_const ph ps (by simpa [phoneNumbers] using h''))

theorem mem_numbers_dictInsert {n' : String} (ph : PhoneInfo)
    (l : List PhoneInfo) (h : n' ∈ phoneNumbers l ∨ n' = ph.number) :
    n' ∈ phoneNumbers (dictInsert l ph) := by
  rw [dictInsert]
  split
  · rename_i hany
    rcases h with h' | rfl
    · exact mem_numbers_updateFirst_const ph l h'
    · obtain ⟨q, hq, hqn⟩ := List.any_eq_true.1 hany
      exact mem_numbers_updateFirst_const ph l
        (by
          have : q.number = ph.number := by simpa using hqn
          rw [← this]
          exact List.mem_map_of_mem PhoneInfo.number hq)
  · rcases h with h' | rfl
    · simp only [phoneNumbers, List.map_append, List.mem_append]
      exact Or.inl (by simpa [phoneNumbers] using h')
    · simp [phoneNumbers]

theorem fetchNumbers_numbers_mono (prov : Nat → NumResp) :
    ∀ (n idx : Nat) (phones : List PhoneInfo)
      (amap : List (String × String)) (num : String),
      num ∈ phoneNumbers phones →
      num ∈ phoneNumbers (fetchNumbers prov n idx phones amap).phones
  | 0, idx, phones, amap, num => by intro h; exact h
  | n + 1, idx, phones, amap, num => by
    intro h
    cases hp : prov idx with
    | ok nm actId =>
      simp only [fetchNumbers, hp]
      exact fetchNumbers_numbers_mono prov n (idx + 1) _ _ num
        (mem_numbers_dictInsert _ phones (Or.inl h))
    | fail => simpa [fetchNumbers, hp] using h
    | exc => simpa [fetchNumbers, hp] using h

theorem fetchNumbers_keeps (prov : Nat → NumResp) :
    ∀ (k n idx : Nat) (phones : List PhoneInfo)
      (amap : List (String × String)) (num a : String),
      k < n →
      (∀ k', k' < k → isOkResp (prov (idx + k')) = true) →
      prov (idx + k) = NumResp.ok num a →
      num ∈ phoneNumbers (fetchNumbers prov n idx phones amap).phones
  | 0, n, idx, phones, amap, num, a => by
    intro hk _ hok
    cases n with
    | zero => omega
    | succ m =>
      rw [Nat.add_zero] at hok
      simp only [fetchNumbers, hok]
      exact fetchNumbers_numbers_mono prov m (idx + 1) _ _ num
        (mem_numbers_dictInsert _ phones (Or.inr rfl))
  | k + 1, n, idx, phones, amap, num, a => by
    intro hk hall hok
    cases n with
    | zero => omega
    | succ m =>
      have h0 : isOkResp (prov idx) = true := by simpa using hall 0 (by omega)
      cases hp : prov idx with
      | ok nm actId =>
        simp only [fetchNumbers, hp]
        exact fetchNumbers_keeps prov k m (idx + 1) _ _ num a (by omega)
          (fun k' hk' => by
            have := hall (k' + 1) (by omega)
            rwa [show idx + (k' + 1) = idx + 1 + k' by omega] at this)
          (by rwa [show idx + 1 + k = idx + (k + 1) by omega])
      | fail => rw [hp] at h0; simp [isOkResp] at h0
      | exc => rw [hp] at h0; simp [isOkResp] at h0

/-- C7: Refill algorithm.  `_refill_pool` computes
`needed = pool_size − availableCount` (available = not leased and not
exhausted w.r.t. `max_uses`); when `needed ≤ 0` it changes nothing and
makes no provisioner call; otherwise it requests at most `needed` numbers
one at a time, stops right after the first non-success or exception
(keeping every number obtained before it, each inserted with
`used_count = 0` and no holder), and on an all-success run makes exactly
`needed` requests. -/
theorem refill_algorithm (maxUses poolSize : Nat) (prov : Nat → NumResp)
    (s : HSState) :
    (poolSize - countAvailable maxUses s.phones = 0 →
      refill_pool maxUses poolSize prov s = s) ∧
    (refill_pool maxUses poolSize prov s).provIdx ≤
      s.provIdx + (poolSize - countAvailable maxUses s.phones) ∧
    (∀ q ∈ (refill_pool maxUses poolSize prov s).phones,
      q ∈ s.phones ∨
        (q.used_count = 0 ∧ q.locked_by = none ∧ q.locked_at = none)) ∧
    (∀ j, j < poolSize - countAvailable maxUses s.phones →
      (∀ k, k < j → isOkResp (prov (s.provIdx + k)) = true) →
      isOkResp (prov (s.provIdx + j)) = false →
      (refill_pool maxUses poolSize prov s).provIdx = s.provIdx + j + 1) ∧
    ((∀ k, k < poolSize - countAvailable maxUses s.phones →
        isOkResp (prov (s.provIdx + k)) = true) →
      (refill_pool maxUses poolSize prov s).provIdx =
        s.provIdx + (poolSize - countAvailable maxUses s.phones)) ∧
    (∀ k num a, k < poolSize - countAvailable maxUses s.phones →
      (∀ k', k' < k → isOkResp (prov (s.provIdx + k')) = true) →
      prov (s.provIdx + k) = NumResp.ok num a →
      num ∈ phoneNumbers (refill_pool maxUses poolSize prov s).phones) := by
  by_cases hz : poolSize - countAvailable maxUses s.phones = 0
  · have hr : refill_pool maxUses poolSize prov s = s := by
      rw [refill_pool]
      simp [hz]
    refine ⟨fun _ => hr, ?_, ?_, ?_, ?_, ?_⟩
    · rw [hr]; omega
    · rw [hr]; exact fun q hq => Or.inl hq
    · intro j hj; omega
    · intro _; rw [hr, hz]; omega
    · intro k num a hk; omega
  · have hr : refill_pool maxUses poolSize prov s =
        { s with
          phones := (fetchNumbers prov
            (poolSize - countAvailable maxUses s.phones) s.provIdx s.phones
            s.activationMap).phones
          activationMap := (fetchNumbers prov
            (poolSize - countAvailable maxUses s.phones) s.provIdx s.phones
            s.activationMap).amap
          provIdx := (fetchNumbers prov
            (poolSize - countAvailable maxUses s.phones) s.provIdx s.phones
            s.activationMap).idx } := by
      rw [refill_pool]
      simp [hz]
    refine ⟨fun h => absurd h hz, ?_, ?_, ?_, ?_, ?_⟩
    · rw [hr]
      exact fetchNumbers_idx_le prov _ s.provIdx s.phones s.activationMap
    · rw [hr]
      exact fun q hq => fetchNumbers_fresh prov _ s.provIdx s.phones
        s.activationMap q hq
    · intro j hj hok hfail
      rw [hr]
      exact fetchNumbers_idx_first_fail prov j _ s.provIdx s.phones
        s.activationMap hj hok hfail
    · intro hok
      rw [hr]
      exact fetchNumbers_idx_all_ok prov _ s.provIdx s.phones
        s.activationMap hok
    · intro k num a hk hall hok
      rw [hr]
      exact fetchNumbers_keeps prov k _ s.provIdx s.phones s.activationMap
        num a hk hall hok

theorem refill_algorithm_witness :
    refill_pool 2 0 provOk hsEmpty = hsEmpty ∧
    (refill_pool 2 1 provOk hsEmpty).provIdx =
      hsEmpty.provIdx + (1 - countAvailable 2 hsEmpty.phones) :=
  ⟨(refill_algorithm 2 0 provOk hsEmpty).1 (by decide),
    (refill_algorithm 2 1 provOk hsEmpty).2.2.2.2.1 (fun k _ => rfl)⟩

/-- The C8 scenario, built concretely: one available phone and two leased
phones in a pool with `pool_size = 3`. -/
def availPhone : PhoneInfo := { number := "a1" }

/-- First leased phone of the C8 scenario. -/
def lockedPhoneA : PhoneInfo :=
  { number := "b1", locked_by := some "WA", locked_at := some 0 }

/-- Second leased phone of the C8 scenario. -/
def lockedPhoneB : PhoneInfo :=
  { number := "b2", locked_by := some "WB", locked_at := some 0 }

/-- Pool state of the C8 scenario. -/
def scenarioState : HSState :=
  { phones := [availPhone, lockedPhoneA, lockedPhoneB] }

/-- C8 counterexample: with `targetSize = 3`, exactly 1 phone available and
2 leased, one refill invocation (with an always-succeeding provisioner)
makes **2** provisioner requests — `needed = 3 − availableCount = 3 − 1` —
not 1 as the claim states. -/
theorem refill_scenario_requests_one_cex :
    countAvailable 2 scenarioState.phones = 1 ∧
    (scenarioState.phones.filter (fun p => p.locked_by.isSome)).length = 2 ∧
    scenarioState.provIdx = 0 ∧
    (refill_pool 2 3 provOk scenarioState).provIdx = 2 ∧
    (2 : Nat) ≠ 1 := by
  decide

/-- C8 (amended): in a pool with `targetSize = 3` where exactly 1 phone is
available and 2 are leased, one refill invocation with an always-succeeding
provisioner requests exactly **2** new resources
(`needed = targetSize − availableCount = 3 − 1 = 2`). -/
theorem refill_scenario_requests_two (maxUses : Nat) (prov : Nat → NumResp)
    (s : HSState)
    (h1 : countAvailable maxUses s.phones = 1)
    (_h2 : (s.phones.filter (fun p => p.locked_by.isSome)).length = 2)
    (hok : ∀ k, isOkResp (prov k) = true) :
    (refill_pool maxUses 3 prov s).provIdx = s.provIdx + 2 := by
  have h := (refill_algorithm maxUses 3 prov s).2.2.2.2.1
    (fun k _ => hok (s.provIdx + k))
  rw [h1] at h
  simpa using h

theorem refill_scenario_requests_two_witness :
    (refill_pool 2 3 provOk scenarioState).provIdx =
      scenarioState.provIdx + 2 :=
  refill_scenario_requests_two 2 provOk scenarioState (by decide) (by decide)
    (fun k => rfl)

/-- C9: Code polling classification.  For every status-response stream,
`get_sms_code` (for a phone with a truthy activation id) polls: it returns
the code immediately on the first response classified as received
(`status == 'success'` with a truthy code), returns `none` immediately on
the first response classified as canceled, keeps polling — consuming one
retry — on every other response (wait, unexpected status, success without
a code, or a raised exception), and returns `none` after `maxRetries`
responses with no received or canceled outcome; being a total function
into `Option`, it never raises to the caller. -/
theorem sms_code_classification (hst : Nat → StatusResp) (s : HSState)
    (phone : String) (ph : PhoneInfo) (a : String)
    (hlk : lookupPhone s.phones phone = some ph)
    (hid : ph.activation_id = some a) (hne : a ≠ "") :
    (∀ maxRetries, get_sms_code hst s phone maxRetries =
      get_sms_code_loop hst maxRetries 0) ∧
    (∀ n k c, receivedCode (hst k) = some c →
      get_sms_code_loop hst (n + 1) k = some c) ∧
    (∀ n k, canceledResp (hst k) = true →
      get_sms_code_loop hst (n + 1) k = none) ∧
    (∀ n k, receivedCode (hst k) = none → canceledResp (hst k) = false →
      get_sms_code_loop hst (n + 1) k = get_sms_code_loop hst n (k + 1)) ∧
    (∀ n k, (∀ j, j < n → receivedCode (hst (k + j)) = none ∧
        canceledResp (hst (k + j)) = false) →
      get_sms_code_loop hst n k = none) := by
  refine ⟨?_, ?_, ?_, ?_, ?_⟩
  · intro maxRetries
    rw [get_sms_code, hlk]
    simp [hid, hne]
  · intro n k c hrc
    cases hh : hst k with
    | exc => rw [hh] at hrc; simp [receivedCode] at hrc
    | resp st cc =>
      rw [hh] at hrc
      rw [get_sms_code_loop, hh]
      simp [hrc]
  · intro n k hc
    cases hh : hst k with
    | exc => rw [hh] at hc; simp [canceledResp] at hc
    | resp st cc =>
      rw [hh] at hc
      have hst' : st = "canceled" := by simpa [canceledResp] using hc
      subst hst'
      rw [get_sms_code_loop, hh]
      simp [receivedCode]
  · intro n k hrc hc
    cases hh : hst k with
    | exc => rw [get_sms_code_loop, hh]
    | resp st cc =>
      rw [hh] at hrc hc
      have hcanc : ¬ st = "canceled" := by
        intro habs
        rw [habs] at hc
        simp [canceledResp] at hc
      rw [get_sms_code_loop, hh]
      by_cases hw : st = "wait"
      · subst hw
        simp [hrc]
      · simp [hrc, hw, hcanc]
  · intro n
    induction n with
    | zero => intro k _; rfl
    | succ m ih =>
      intro k h
      have h0 := h 0 (by omega)
      rw [Nat.add_zero] at h0
      cases hh : hst k with
      | exc =>
        rw [get_sms_code_loop, hh]
        exact ih (k + 1) (fun j hj => by
          have := h (j + 1) (by omega)
          rwa [show k + (j + 1) = k + 1 + j by omega] at this)
      | resp st cc =>
        rw [hh] at h0
        rw [get_sms_code_loop, hh]
        have hcanc : ¬ st = "canceled" := by
          intro habs
          rw [habs] at h0
          simp [canceledResp] at h0
        have htail := ih (k + 1) (fun j hj => by
          have := h (j + 1) (by omega)
          rwa [show k + (j + 1) = k + 1 + j by omega] at this)
        by_cases hw : st = "wait"
        · subst hw
          simp [h0.1, htail]
        · simp [h0.1, hw, hcanc, htail]

/-- The status stream of the C9 witness: one `wait`, then a success
carrying code `1234`. -/
def hstWitness : Nat → StatusResp := fun i =>
  if i = 0 then StatusResp.resp "wait" none
  else StatusResp.resp "success" (some "1234")

/-- The phone with a live activation id used by the C9 witness. -/
def actPhone : PhoneInfo := { number := "a", activation_id := some "99" }

/-- Pool state of the C9 witness. -/
def hsAct : HSState := { phones := [actPhone] }

theorem sms_code_classification_witness :
    get_sms_code hstWitness hsAct "a" 5 = get_sms_code_loop hstWitness 5 0 ∧
    get_sms_code_loop hstWitness 3 1 = some "1234" ∧
    get_sms_code_loop hstWitness 2 0 = get_sms_code_loop hstWitness 1 1 :=
  ⟨(sms_code_classification hstWitness hsAct "a" actPhone "99" (by decide)
      (by decide) (by decide)).1 5,
    (sms_code_classification hstWitness hsAct "a" actPhone "99" (by decide)
      (by decide) (by decide)).2.1 2 1 "1234" (by decide),
    (sms_code_classification hstWitness hsAct "a" actPhone "99" (by decide)
      (by decide) (by decide)).2.2.2.1 1 0 (by decide) (by decide)⟩

end AmazonCreator
